import Mathlib

/-!
Verification of the FocusOS calendar scheduling subsystem.

This file gives a shallow embedding of the scheduling core of the
repository (`src/components/Planner.tsx` calendar component plus the task
tree store of the application root) and proves the stated properties of
the occupancy grid builder, the greedy auto-scheduler, and the
interactive drag/resize placement rules.

Modelling conventions:
* A JS `Date` timestamp is abstracted as an `Instant`: a calendar day
  (an integer index standing for the value of `toDateString()`) together
  with the minute of the day (`getHours() * 60 + getMinutes()`).
* `scheduledDate?: number` becomes `Option Instant`; the JS truthiness
  test `if (t.scheduledDate)` is modelled as `isSome` (the epoch-zero
  timestamp, which JS would treat as unset, is identified with `none`).
* Per-day `boolean[]` minute arrays, stored in a `Map` keyed by the day
  string, become one total function `Grid : Int → Nat → Bool`; the map
  look-ups `occupied.has(dayStr)` / `occupied.get(dayStr)!` become
  membership tests of the day in the horizon list.
* Numbers used as pixel heights in the resize logic are modelled as `ℚ`
  (browser mouse coordinates may be fractional); `Math.round` for the
  non-negative values that occur is `⌊x + 1/2⌋`.
-/

namespace FocusOS

/-- `TaskStatus` from `src/types.ts`. -/
inductive TaskStatus where
  | TODO
  | IN_PROGRESS
  | COMPLETED
deriving DecidableEq, Repr

/-- A scheduled instant: calendar day plus minute of the day. -/
structure Instant where
  day : Int
  minute : Nat
deriving DecidableEq, Repr

/-- `SubTask` from `src/types.ts`, restricted to the fields the
scheduling subsystem reads or writes. -/
structure SubTask where
  id : String
  title : String
  status : TaskStatus
  estimatedMinutes : Nat
  scheduledDate : Option Instant
  subtasks : List SubTask
deriving Repr

/-- `Project` from `src/types.ts`, restricted to the fields the
scheduling subsystem reads or writes. -/
structure Project where
  id : String
  title : String
  description : String
  status : TaskStatus
  subtasks : List SubTask
deriving Repr

/-- A partial task update (`Partial<SubTask>`) as used by the calls the
scheduling subsystem makes: only `status`, `estimatedMinutes` and
`scheduledDate` are ever patched by the modelled flows.  A field set to
`none` is absent from the JS object literal; `scheduledDate := some none`
models the literal `{ scheduledDate: undefined }`. -/
structure TaskPatch where
  status : Option TaskStatus := none
  estimatedMinutes : Option Nat := none
  scheduledDate : Option (Option Instant) := none

/-- JS object spread `{ ...t, ...updates }` for a `TaskPatch`. -/
def applyPatch (p : TaskPatch) (t : SubTask) : SubTask :=
  { t with
    status := p.status.getD t.status
    estimatedMinutes := p.estimatedMinutes.getD t.estimatedMinutes
    scheduledDate := p.scheduledDate.getD t.scheduledDate }

/-- `flattenTasks` from `src/components/Planner.tsx` (calendar part):
pre-order flattening of the task forest (each node before its own
subtree, siblings in order). -/
def flattenTasks : List SubTask → List SubTask
  | [] => []
  | t :: ts => t :: (flattenTasks t.subtasks ++ flattenTasks ts)
termination_by l => sizeOf l
decreasing_by
  all_goals cases t
  all_goals simp
  all_goals omega

/-- `recursiveUpdate` from the application root (and, identically up to
an empty-list guard, from `src/components/Planner.tsx`): apply `f` to
every node whose id matches, otherwise recurse into the children. -/
def recursiveUpdate : List SubTask → String → (SubTask → SubTask) → List SubTask
  | [], _, _ => []
  | t :: ts, tid, f =>
    (if t.id = tid then f t
     else { t with subtasks := recursiveUpdate t.subtasks tid f }) :: recursiveUpdate ts tid f
termination_by l _ _ => sizeOf l
decreasing_by
  all_goals cases t
  all_goals simp
  all_goals omega

/-- `bulkUpdateTaskInTree` from `src/components/Planner.tsx`: like
`recursiveUpdate` but with a spread of a partial update. -/
def bulkUpdateTaskInTree : List SubTask → String → TaskPatch → List SubTask
  | [], _, _ => []
  | t :: ts, tid, p =>
    (if t.id = tid then applyPatch p t
     else { t with subtasks := bulkUpdateTaskInTree t.subtasks tid p }) :: bulkUpdateTaskInTree ts tid p
termination_by l _ _ => sizeOf l
decreasing_by
  all_goals cases t
  all_goals simp
  all_goals omega

/-- `findTaskById` from the application root: first match in pre-order. -/
def findTaskById : List SubTask → String → Option SubTask
  | [], _ => none
  | t :: ts, tid =>
    if t.id = tid then some t
    else
      match findTaskById t.subtasks tid with
      | some r => some r
      | none => findTaskById ts tid
termination_by l _ => sizeOf l
decreasing_by
  all_goals cases t
  all_goals simp
  all_goals omega

/-- `handleUpdateTask` from the application root: patch every matching
task inside the project with the matching id. -/
def handleUpdateTask (projects : List Project) (projectId taskId : String)
    (updates : TaskPatch) : List Project :=
  projects.map fun p =>
    if p.id = projectId then
      { p with subtasks := recursiveUpdate p.subtasks taskId (applyPatch updates) }
    else p

/-- `handleScheduleTask` from the application root: set the scheduled
instant of every matching task inside the matching project. -/
def handleScheduleTask (projects : List Project) (projectId taskId : String)
    (date : Instant) : List Project :=
  projects.map fun p =>
    if p.id = projectId then
      { p with subtasks := recursiveUpdate p.subtasks taskId (fun t => { t with scheduledDate := some date }) }
    else p

/-- Per-horizon occupancy: for each day, a busy flag per minute of the
day.  Models the `Map<string, boolean[]>` of `handleAutoSchedule`
(`occupied`), keyed by the day and indexed by the minute. -/
abbrev Grid : Type := Int → Nat → Bool

/-- The freshly allocated all-free grid (`new Array(24*60).fill(false)`
for every horizon day). -/
def emptyGrid : Grid := fun _ _ => false

/-- The occupancy-fill step of `handleAutoSchedule` for one already
scheduled task: if the task has a scheduled instant whose day is a
horizon day, mark the minutes `[startMin, startMin + estimatedMinutes)`
busy, clamped by the loop condition `i < endMin && i < 24*60`. -/
def fillScheduledTask (horizon : List Int) (g : Grid) (t : SubTask) : Grid :=
  match t.scheduledDate with
  | none => g
  | some inst =>
    if inst.day ∈ horizon then
      fun d m =>
        if d = inst.day ∧ inst.minute ≤ m ∧ m < inst.minute + t.estimatedMinutes ∧ m < 24 * 60 then true
        else g d m
    else g

/-- The occupancy grid built by `handleAutoSchedule` from the existing
scheduled tasks (`scheduledTasks.forEach` fill loop). -/
def buildOccupied (horizon : List Int) (tasks : List SubTask) : Grid :=
  tasks.foldl (fillScheduledTask horizon) emptyGrid

/-- The inner free-slot check of `handleAutoSchedule`: every minute of
`[start, start + dur)` is unmarked in the day's grid. -/
def isFreeAt (g : Grid) (day : Int) (start dur : Nat) : Bool :=
  (List.range dur).all fun k => !g day (start + k)

/-- Candidate start minutes of the placement scan: the loop
`for (min = START_HOUR*60; min <= END_HOUR*60 - duration; min += 15)`,
i.e. `540, 555, …` while `min + dur ≤ 1020`. -/
def candidateStarts (dur : Nat) : List Nat :=
  if 540 + dur ≤ 1020 then (List.range ((480 - dur) / 15 + 1)).map (fun k => 540 + 15 * k) else []

/-- One day's placement scan of `handleAutoSchedule`: the first candidate
start minute whose whole interval is free. -/
def scanDay (g : Grid) (day : Int) (dur : Nat) : Option Nat :=
  (candidateStarts dur).find? fun m => isFreeAt g day m dur

/-- The day loop of `handleAutoSchedule`: try horizon days in order,
return the first day together with its first free start minute. -/
def findSlot (g : Grid) (days : List Int) (dur : Nat) : Option (Int × Nat) :=
  match days with
  | [] => none
  | day :: rest =>
    match scanDay g day dur with
    | some m => some (day, m)
    | none => findSlot g rest dur

/-- One entry of the `updates` array accumulated by
`handleAutoSchedule`: `{ projectId, taskId, date }`. -/
structure Update where
  projectId : String
  taskId : String
  date : Instant
deriving DecidableEq, Repr

/-- One element of the scheduler queues: a task paired with the id of
the project it was discovered in (the source keeps the whole project
object but only ever reads its `id`). -/
structure QTask where
  projectId : String
  task : SubTask
deriving Repr

/-- Processing of one unscheduled task by `handleAutoSchedule`
(`queue.forEach` body): with effective duration `max(15,
estimatedMinutes)`, find the first free slot over the horizon; on
success mark the claimed minutes busy and append an update, otherwise
leave grid and updates unchanged. -/
def autoStep (horizon : List Int) (st : Grid × List Update) (qt : QTask) : Grid × List Update :=
  match findSlot st.1 horizon (max 15 qt.task.estimatedMinutes) with
  | some (day, m) =>
    (fun d m2 => if d = day ∧ m ≤ m2 ∧ m2 < m + max 15 qt.task.estimatedMinutes then true else st.1 d m2,
     st.2 ++ [⟨qt.projectId, qt.task.id, ⟨day, m⟩⟩])
  | none => st

/-- A full auto-scheduler run over the unscheduled queue, starting from
the occupancy grid `g₀`, returning the final grid and the accumulated
updates in placement order. -/
def autoScheduleRun (horizon : List Int) (queue : List QTask) (g0 : Grid) : Grid × List Update :=
  queue.foldl (autoStep horizon) (g0, [])

/-- One task's contribution to the `unscheduledTasks` / `scheduledTasks`
partition (the `allSubtasks.forEach` body of the `useMemo` in the
calendar component): skip `COMPLETED` tasks, otherwise append to the
scheduled or the unscheduled list according to `t.scheduledDate`. -/
def collectStep (pid : String) (acc : List QTask × List QTask) (t : SubTask) : List QTask × List QTask :=
  if t.status = TaskStatus.COMPLETED then acc
  else if t.scheduledDate.isSome then (acc.1, acc.2 ++ [⟨pid, t⟩])
  else (acc.1 ++ [⟨pid, t⟩], acc.2)

/-- One project's contribution to the partition (the `projects.forEach`
body): flatten the task tree in pre-order and process each task. -/
def collectProject (acc : List QTask × List QTask) (p : Project) : List QTask × List QTask :=
  (flattenTasks p.subtasks).foldl (collectStep p.id) acc

/-- The `unscheduledTasks` / `scheduledTasks` partition (`useMemo` in the
calendar component).  First component: unscheduled; second: scheduled. -/
def collectTasks (projects : List Project) : List QTask × List QTask :=
  projects.foldl collectProject ([], [])

/-- Predicate for membership in the unscheduled queue: not completed and
without a scheduled instant. -/
def unschedPred (qt : QTask) : Bool :=
  !(qt.task.status == TaskStatus.COMPLETED) && !qt.task.scheduledDate.isSome

/-- Predicate for membership in the scheduled list: not completed and
with a scheduled instant. -/
def schedPred (qt : QTask) : Bool :=
  !(qt.task.status == TaskStatus.COMPLETED) && qt.task.scheduledDate.isSome

/-- The bulk-apply step of `handleAutoSchedule` for one update: replace
the first project with the matching id (`findIndex`) by a copy whose
tree has the task's `scheduledDate` set. -/
def applyUpdate : List Project → Update → List Project
  | [], _ => []
  | p :: ps, u =>
    if p.id = u.projectId then
      { p with subtasks := bulkUpdateTaskInTree p.subtasks u.taskId { scheduledDate := some (some u.date) } } :: ps
    else p :: applyUpdate ps u

/-- The bulk apply of all accumulated updates (`updates.forEach` over the
copied project array). -/
def applyUpdates (projects : List Project) (updates : List Update) : List Project :=
  updates.foldl applyUpdate projects

/-- `handleDrop` of the calendar component: a drop of a task payload on
the cell `(day, hour?)` schedules the task at minute `hour*60` of the
day (hour-grid drop) or at midnight (whole-day drop); a missing or
malformed payload is ignored. -/
def handleDrop (projects : List Project) (day : Int) (hour : Option Nat)
    (payload : Option (String × String)) : List Project :=
  match payload with
  | none => projects
  | some (projectId, taskId) =>
    let minute := match hour with | some h => h * 60 | none => 0
    handleScheduleTask projects projectId taskId ⟨day, minute⟩

/-- `handleUnscheduleDrop` of the calendar component: a drop of a task
payload on the backlog target clears the task's scheduled instant
(`{ scheduledDate: undefined }`); a missing or malformed payload is
ignored. -/
def handleUnscheduleDrop (projects : List Project) (payload : Option (String × String)) : List Project :=
  match payload with
  | none => projects
  | some (projectId, taskId) =>
    handleUpdateTask projects projectId taskId { scheduledDate := some none }

/-- `Math.round` of JavaScript for the non-negative heights that occur
in the resize logic: round half up. -/
def jsRound (x : ℚ) : Int := ⌊x + 1 / 2⌋

/-- The live candidate height maintained by `handleMouseMove` during a
resize drag: `Math.max(15, resizingTask.startHeight + delta)`. -/
def candidateHeight (startHeight delta : ℚ) : ℚ := max 15 (startHeight + delta)

/-- The committed duration computed by `handleMouseUp`:
`newMinutes = Math.round(h)` then
`Math.max(15, Math.round(newMinutes / 15) * 15)`. -/
def commitSnappedMinutes (h : ℚ) : Int :=
  max 15 (jsRound ((jsRound h : ℚ) / 15) * 15)

/-- The release handler of the resize effect (`handleMouseUp`): if a
live candidate height exists (and is truthy), commit the snapped
duration as the task's new `estimatedMinutes`. -/
def handleResizeMouseUp (projects : List Project) (projectId taskId : String)
    (currentResizeHeight : Option ℚ) : List Project :=
  match currentResizeHeight with
  | none => projects
  | some h =>
    if h = 0 then projects
    else handleUpdateTask projects projectId taskId { estimatedMinutes := some (commitSnappedMinutes h).toNat }

/-- The rendered height of a scheduled task block in the intraday view
(`renderIntradayView`) when it is not being resized:
`Math.max(task.estimatedMinutes, 30)`.  This is the `height` handed to
`handleResizeStart` as the drag's `startHeight`. -/
def durationHeight (estimatedMinutes : Nat) : Nat := max estimatedMinutes 30

/-! ### Occupancy grid lemmas -/

lemma fillScheduledTask_eq_true_iff (horizon : List Int) (g : Grid) (t : SubTask) (d : Int) (m : Nat) :
    fillScheduledTask horizon g t d m = true ↔
      g d m = true ∨ ∃ inst, t.scheduledDate = some inst ∧ inst.day ∈ horizon ∧ d = inst.day ∧
        inst.minute ≤ m ∧ m < inst.minute + t.estimatedMinutes ∧ m < 24 * 60 := by
  cases h : t.scheduledDate with
  | none => simp [fillScheduledTask, h]
  | some inst =>
    simp only [fillScheduledTask, h]
    by_cases hd : inst.day ∈ horizon
    · simp only [if_pos hd]
      by_cases hc : d = inst.day ∧ inst.minute ≤ m ∧ m < inst.minute + t.estimatedMinutes ∧ m < 24 * 60
      · simp only [if_pos hc]
        constructor
        · intro _
          exact Or.inr ⟨inst, rfl, hd, hc.1, hc.2.1, hc.2.2.1, hc.2.2.2⟩
        · intro _
          trivial
      · simp only [if_neg hc]
        constructor
        · exact Or.inl
        · rintro (hg | ⟨inst2, hinst2, _, h1, h2, h3, h4⟩)
          · exact hg
          · cases Option.some.inj hinst2
            exact absurd ⟨h1, h2, h3, h4⟩ hc
    · simp only [if_neg hd]
      constructor
      · exact Or.inl
      · rintro (hg | ⟨inst2, hinst2, hd2, _⟩)
        · exact hg
        · cases Option.some.inj hinst2
          exact absurd hd2 hd

lemma foldl_fill_eq_true_iff (horizon : List Int) (tasks : List SubTask) :
    ∀ (g : Grid) (d : Int) (m : Nat),
      (tasks.foldl (fillScheduledTask horizon) g) d m = true ↔
        g d m = true ∨ ∃ t ∈ tasks, ∃ inst, t.scheduledDate = some inst ∧ inst.day ∈ horizon ∧
          d = inst.day ∧ inst.minute ≤ m ∧ m < inst.minute + t.estimatedMinutes ∧ m < 24 * 60 := by
  induction tasks with
  | nil => simp
  | cons t ts ih =>
    intro g d m
    rw [List.foldl_cons, ih, fillScheduledTask_eq_true_iff]
    constructor
    · rintro ((hg | ⟨inst, h1, h2, h3, h4, h5, h6⟩) | ⟨t2, ht2, rest⟩)
      · exact Or.inl hg
      · exact Or.inr ⟨t, List.mem_cons_self t ts, inst, h1, h2, h3, h4, h5, h6⟩
      · exact Or.inr ⟨t2, List.mem_cons_of_mem t ht2, rest⟩
    · rintro (hg | ⟨t2, ht2, rest⟩)
      · exact Or.inl (Or.inl hg)
      · rcases List.mem_cons.mp ht2 with rfl | ht2
        · exact Or.inl (Or.inr rest)
        · exact Or.inr ⟨t2, ht2, rest⟩

lemma buildOccupied_eq_true_iff (horizon : List Int) (tasks : List SubTask) (d : Int) (m : Nat) :
    buildOccupied horizon tasks d m = true ↔
      ∃ t ∈ tasks, ∃ inst, t.scheduledDate = some inst ∧ inst.day ∈ horizon ∧
        d = inst.day ∧ inst.minute ≤ m ∧ m < inst.minute + t.estimatedMinutes ∧ m < 24 * 60 := by
  rw [buildOccupied, foldl_fill_eq_true_iff]
  simp [emptyGrid]

/-! ### Placement-scan lemmas -/

lemma isFreeAt_eq_true_iff (g : Grid) (day : Int) (start dur : Nat) :
    isFreeAt g day start dur = true ↔ ∀ k, k < dur → g day (start + k) = false := by
  simp [isFreeAt, List.all_eq_true, Bool.not_eq_true']

lemma mem_candidateStarts (dur m : Nat) :
    m ∈ candidateStarts dur ↔ (∃ k, m = 540 + 15 * k) ∧ m + dur ≤ 1020 := by
  rw [candidateStarts]
  by_cases h : 540 + dur ≤ 1020
  · simp only [if_pos h, List.mem_map, List.mem_range]
    constructor
    · rintro ⟨k, hk, rfl⟩
      exact ⟨⟨k, rfl⟩, by omega⟩
    · rintro ⟨⟨k, rfl⟩, hle⟩
      exact ⟨k, by omega, rfl⟩
  · simp only [if_neg h, List.not_mem_nil, false_iff]
    rintro ⟨⟨k, rfl⟩, hle⟩
    omega

lemma candidateStarts_pairwise_lt (dur : Nat) :
    (candidateStarts dur).Pairwise (· < ·) := by
  rw [candidateStarts]
  by_cases h : 540 + dur ≤ 1020
  · rw [if_pos h, List.pairwise_map]
    exact (List.pairwise_lt_range _).imp (by omega)
  · rw [if_neg h]
    exact List.Pairwise.nil

lemma find?_eq_some_iff_of_pairwise_lt {l : List Nat} (hl : l.Pairwise (· < ·))
    (p : Nat → Bool) (m : Nat) :
    l.find? p = some m ↔ m ∈ l ∧ p m = true ∧ ∀ x ∈ l, x < m → p x = false := by
  induction l with
  | nil => simp
  | cons a l ih =>
    have ha : ∀ x ∈ l, a < x := fun x hx => List.rel_of_pairwise_cons hl hx
    have hl2 : l.Pairwise (· < ·) := hl.of_cons
    by_cases hpa : p a = true
    · rw [List.find?_cons_of_pos _ hpa]
      constructor
      · rintro h
        obtain rfl := Option.some.inj h
        refine ⟨List.mem_cons_self _ _, hpa, ?_⟩
        intro x hx hxa
        rcases List.mem_cons.mp hx with rfl | hx
        · omega
        · exact absurd (ha x hx) (by omega)
      · rintro ⟨hm, hpm, hmin⟩
        rcases List.mem_cons.mp hm with rfl | hm
        · rfl
        · have := hmin a (List.mem_cons_self _ _) (ha m hm)
          rw [hpa] at this
          exact absurd this (by simp)
    · have hpa2 : p a = false := by
        cases h2 : p a
        · rfl
        · exact absurd h2 hpa
      rw [List.find?_cons_of_neg _ (by simp [hpa2])]
      rw [ih hl2]
      constructor
      · rintro ⟨hm, hpm, hmin⟩
        refine ⟨List.mem_cons_of_mem a hm, hpm, ?_⟩
        intro x hx hxm
        rcases List.mem_cons.mp hx with rfl | hx
        · exact hpa2
        · exact hmin x hx hxm
      · rintro ⟨hm, hpm, hmin⟩
        rcases List.mem_cons.mp hm with rfl | hm
        · rw [hpm] at hpa2
          exact absurd hpa2 (by simp)
        · exact ⟨hm, hpm, fun x hx hxm => hmin x (List.mem_cons_of_mem a hx) hxm⟩

lemma scanDay_eq_some_iff (g : Grid) (day : Int) (dur m : Nat) :
    scanDay g day dur = some m ↔
      (∃ k, m = 540 + 15 * k) ∧ m + dur ≤ 1020 ∧ isFreeAt g day m dur = true ∧
        ∀ m2, (∃ k, m2 = 540 + 15 * k) → m2 + dur ≤ 1020 → m2 < m →
          isFreeAt g day m2 dur = false := by
  rw [scanDay, find?_eq_some_iff_of_pairwise_lt (candidateStarts_pairwise_lt dur)]
  constructor
  · rintro ⟨hm, hfree, hmin⟩
    obtain ⟨hk, hle⟩ := (mem_candidateStarts dur m).mp hm
    exact ⟨hk, hle, hfree, fun m2 hk2 hle2 hlt =>
      hmin m2 ((mem_candidateStarts dur m2).mpr ⟨hk2, hle2⟩) hlt⟩
  · rintro ⟨hk, hle, hfree, hmin⟩
    refine ⟨(mem_candidateStarts dur m).mpr ⟨hk, hle⟩, hfree, ?_⟩
    intro x hx hxm
    obtain ⟨hk2, hle2⟩ := (mem_candidateStarts dur x).mp hx
    exact hmin x hk2 hle2 hxm

lemma findSlot_eq_some (g : Grid) (days : List Int) (dur : Nat) (day : Int) (m : Nat)
    (h : findSlot g days dur = some (day, m)) :
    day ∈ days ∧ scanDay g day dur = some m := by
  induction days with
  | nil => simp [findSlot] at h
  | cons a rest ih =>
    rw [findSlot] at h
    cases hs : scanDay g a dur with
    | some m2 =>
      rw [hs] at h
      simp only [Option.some.injEq, Prod.mk.injEq] at h
      obtain ⟨rfl, rfl⟩ := h
      exact ⟨List.mem_cons_self _ _, hs⟩
    | none =>
      rw [hs] at h
      obtain ⟨hmem, hscan⟩ := ih h
      exact ⟨List.mem_cons_of_mem a hmem, hscan⟩

/-! ### Auto-scheduler run invariants -/

/-- Identity of a queue element: project id and task id. -/
def qtKey (qt : QTask) : String × String := (qt.projectId, qt.task.id)

/-- Identity of a recorded update: project id and task id. -/
def updKey (u : Update) : String × String := (u.projectId, u.taskId)

/-- The effective placement duration of the queue task an update was
recorded for, looked up by its project/task identity. -/
def updDur (queue : List QTask) (u : Update) : Nat :=
  match queue.find? (fun qt => qtKey qt == updKey u) with
  | some qt => max 15 qt.task.estimatedMinutes
  | none => 0

lemma find?_qtKey_eq_some (queue : List QTask) (qt : QTask)
    (hnd : (queue.map qtKey).Nodup) (hmem : qt ∈ queue) :
    queue.find? (fun q => qtKey q == qtKey qt) = some qt := by
  induction queue with
  | nil => simp at hmem
  | cons a l ih =>
    rw [List.map_cons, List.nodup_cons] at hnd
    rcases List.mem_cons.mp hmem with rfl | hmem
    · rw [List.find?_cons_of_pos _ (by simp)]
    · have hne : qtKey a ≠ qtKey qt := by
        intro he
        exact hnd.1 (by rw [he]; exact List.mem_map_of_mem qtKey hmem)
      rw [List.find?_cons_of_neg _ (by simp [hne])]
      exact ih hnd.2 hmem

lemma updDur_eq (queue : List QTask) (qt : QTask) (u : Update)
    (hnd : (queue.map qtKey).Nodup) (hmem : qt ∈ queue) (hkey : qtKey qt = updKey u) :
    updDur queue u = max 15 qt.task.estimatedMinutes := by
  have hfind : queue.find? (fun q => qtKey q == updKey u) = some qt := by
    rw [← hkey]
    exact find?_qtKey_eq_some queue qt hnd hmem
  simp only [updDur, hfind]

/-- An update's effective duration is witnessed by a queue element with
the matching identity. -/
def DurOf (queue : List QTask) (u : Update) (dur : Nat) : Prop :=
  ∃ qt ∈ queue, qtKey qt = updKey u ∧ dur = max 15 qt.task.estimatedMinutes

/-- The two updates' placement intervals (with the given durations) do
not intersect when they fall on the same day. -/
def sepIntervals (u1 u2 : Update) (d1 d2 : Nat) : Prop :=
  u1.date.day = u2.date.day → ∀ m, u1.date.minute ≤ m → m < u1.date.minute + d1 →
    u2.date.minute ≤ m → m < u2.date.minute + d2 → False

/-- Invariant maintained while folding `autoStep` over the queue:
the grid only ever grows from the initial occupancy `g0`; every
recorded update stems from a queue element, lies inside working hours
on a horizon day, has its whole placement interval busy in the current
grid but free in `g0`; and the recorded placement intervals are
pairwise non-intersecting per day. -/
def RunInv (horizon : List Int) (g0 : Grid) (queue : List QTask) (st : Grid × List Update) : Prop :=
  (∀ d m, g0 d m = true → st.1 d m = true) ∧
  (∀ u ∈ st.2, ∃ qt ∈ queue, qtKey qt = updKey u ∧
      u.date.day ∈ horizon ∧ 540 ≤ u.date.minute ∧
      u.date.minute + max 15 qt.task.estimatedMinutes ≤ 1020 ∧
      (∀ k, k < max 15 qt.task.estimatedMinutes → st.1 u.date.day (u.date.minute + k) = true) ∧
      (∀ k, k < max 15 qt.task.estimatedMinutes → g0 u.date.day (u.date.minute + k) = false)) ∧
  List.Pairwise (fun u1 u2 => ∃ d1 d2, DurOf queue u1 d1 ∧ DurOf queue u2 d2 ∧
    sepIntervals u1 u2 d1 d2) st.2

lemma runInv_autoStep (horizon : List Int) (g0 : Grid) (queue : List QTask)
    (st : Grid × List Update) (qt : QTask) (hqt : qt ∈ queue)
    (hinv : RunInv horizon g0 queue st) :
    RunInv horizon g0 queue (autoStep horizon st qt) := by
  obtain ⟨hmono, hupd, hpair⟩ := hinv
  cases hfs : findSlot st.1 horizon (max 15 qt.task.estimatedMinutes) with
  | none =>
    have heq : autoStep horizon st qt = st := by simp [autoStep, hfs]
    rw [heq]
    exact ⟨hmono, hupd, hpair⟩
  | some dm =>
    obtain ⟨day, m⟩ := dm
    have heq : autoStep horizon st qt =
        (fun d m2 => if d = day ∧ m ≤ m2 ∧ m2 < m + max 15 qt.task.estimatedMinutes then true
           else st.1 d m2,
         st.2 ++ [⟨qt.projectId, qt.task.id, ⟨day, m⟩⟩]) := by
      simp [autoStep, hfs]
    rw [heq]
    obtain ⟨hday, hscan⟩ := findSlot_eq_some _ _ _ _ _ hfs
    obtain ⟨⟨k0, hk0⟩, hle, hfree, -⟩ := (scanDay_eq_some_iff _ _ _ _).mp hscan
    have hfree2 : ∀ k, k < max 15 qt.task.estimatedMinutes → st.1 day (m + k) = false :=
      (isFreeAt_eq_true_iff _ _ _ _).mp hfree
    refine ⟨?_, ?_, ?_⟩
    · intro d m2 hg0
      simp only
      by_cases hc : d = day ∧ m ≤ m2 ∧ m2 < m + max 15 qt.task.estimatedMinutes
      · rw [if_pos hc]
      · rw [if_neg hc]
        exact hmono d m2 hg0
    · intro u hu
      rcases List.mem_append.mp hu with hu | hu
      · obtain ⟨qt2, hqt2, hkey, hday2, h540, hbound, hbusy, hfree0⟩ := hupd u hu
        refine ⟨qt2, hqt2, hkey, hday2, h540, hbound, ?_, hfree0⟩
        intro k hk
        have hb := hbusy k hk
        simp only
        by_cases hc : u.date.day = day ∧ m ≤ u.date.minute + k ∧
            u.date.minute + k < m + max 15 qt.task.estimatedMinutes
        · rw [if_pos hc]
        · rw [if_neg hc]
          exact hb
      · rw [List.mem_singleton] at hu
        subst hu
        refine ⟨qt, hqt, rfl, ?_, ?_, ?_, ?_, ?_⟩
        · exact hday
        · show 540 ≤ m
          omega
        · show m + max 15 qt.task.estimatedMinutes ≤ 1020
          exact hle
        · intro k hk
          show (if day = day ∧ m ≤ m + k ∧ m + k < m + max 15 qt.task.estimatedMinutes then true
                else st.1 day (m + k)) = true
          rw [if_pos ⟨rfl, by omega, by omega⟩]
        · intro k hk
          cases hg : g0 day (m + k) with
          | false => rfl
          | true =>
            have := hmono day (m + k) hg
            rw [hfree2 k hk] at this
            exact absurd this (by simp)
    · rw [List.pairwise_append]
      refine ⟨hpair, List.pairwise_singleton _ _, ?_⟩
      intro u1 hu1 u2 hu2
      rw [List.mem_singleton] at hu2
      subst hu2
      obtain ⟨qt2, hqt2, hkey, hday2, h540, hbound, hbusy, hfree0⟩ := hupd u1 hu1
      refine ⟨max 15 qt2.task.estimatedMinutes, max 15 qt.task.estimatedMinutes,
        ⟨qt2, hqt2, hkey, rfl⟩, ⟨qt, hqt, rfl, rfl⟩, ?_⟩
      intro hdd m2 h1 h2 h3 h4
      have hb := hbusy (m2 - u1.date.minute) (by omega)
      rw [Nat.add_sub_cancel' h1] at hb
      have hdd2 : u1.date.day = day := hdd
      rw [hdd2] at hb
      have h3b : m ≤ m2 := h3
      have h4b : m2 < m + max 15 qt.task.estimatedMinutes := h4
      have hf := hfree2 (m2 - m) (by omega)
      rw [Nat.add_sub_cancel' h3b] at hf
      rw [hb] at hf
      exact absurd hf (by simp)

lemma runInv_foldl (horizon : List Int) (g0 : Grid) (queue : List QTask) :
    ∀ (rest : List QTask) (st : Grid × List Update),
      (∀ q ∈ rest, q ∈ queue) → RunInv horizon g0 queue st →
      RunInv horizon g0 queue (rest.foldl (autoStep horizon) st) := by
  intro rest
  induction rest with
  | nil =>
    intro st _ h
    exact h
  | cons a l ih =>
    intro st hsub hinv
    rw [List.foldl_cons]
    exact ih _ (fun q hq => hsub q (List.mem_cons_of_mem a hq))
      (runInv_autoStep horizon g0 queue st a (hsub a (List.mem_cons_self _ _)) hinv)

lemma autoScheduleRun_runInv (horizon : List Int) (queue : List QTask) (g0 : Grid) :
    RunInv horizon g0 queue (autoScheduleRun horizon queue g0) :=
  runInv_foldl horizon g0 queue queue (g0, []) (fun _ hq => hq)
    ⟨fun _ _ h => h, by simp, List.Pairwise.nil⟩

/-! ### Accumulator decomposition of the run -/

lemma autoStep_acc (horizon : List Int) (g : Grid) (acc : List Update) (qt : QTask) :
    autoStep horizon (g, acc) qt =
      ((autoStep horizon (g, []) qt).1, acc ++ (autoStep horizon (g, []) qt).2) := by
  cases hfs : findSlot g horizon (max 15 qt.task.estimatedMinutes) with
  | none => simp [autoStep, hfs]
  | some dm =>
    obtain ⟨day, m⟩ := dm
    simp [autoStep, hfs]

lemma foldl_autoStep_acc (horizon : List Int) (l : List QTask) :
    ∀ (g : Grid) (acc : List Update),
      l.foldl (autoStep horizon) (g, acc) =
        ((l.foldl (autoStep horizon) (g, [])).1,
         acc ++ (l.foldl (autoStep horizon) (g, [])).2) := by
  induction l with
  | nil =>
    intro g acc
    simp
  | cons a l ih =>
    intro g acc
    rw [List.foldl_cons, List.foldl_cons]
    rcases hpr : autoStep horizon (g, []) a with ⟨g1, delta⟩
    rw [autoStep_acc horizon g acc a, hpr]
    rw [ih g1 (acc ++ delta), ih g1 delta]
    simp [List.append_assoc]

/-! ### Partition characterization -/

lemma collectStep_foldl (pid : String) (l : List SubTask) :
    ∀ acc : List QTask × List QTask,
      l.foldl (collectStep pid) acc =
        (acc.1 ++ (l.map (fun t => (⟨pid, t⟩ : QTask))).filter unschedPred,
         acc.2 ++ (l.map (fun t => (⟨pid, t⟩ : QTask))).filter schedPred) := by
  induction l with
  | nil =>
    intro acc
    simp
  | cons t l ih =>
    intro acc
    rw [List.foldl_cons, ih, List.map_cons, List.filter_cons, List.filter_cons]
    by_cases hc : t.status = TaskStatus.COMPLETED
    · have h1 : unschedPred ⟨pid, t⟩ = false := by simp [unschedPred, hc]
      have h2 : schedPred ⟨pid, t⟩ = false := by simp [schedPred, hc]
      rw [collectStep, if_pos hc, h1, h2]
      simp
    · by_cases hs : t.scheduledDate.isSome
      · have h1 : unschedPred ⟨pid, t⟩ = false := by simp [unschedPred, hs]
        have h2 : schedPred ⟨pid, t⟩ = true := by simp [schedPred, hc, hs]
        rw [collectStep, if_neg hc, if_pos hs, h1, h2]
        simp
      · have h1 : unschedPred ⟨pid, t⟩ = true := by simp [unschedPred, hc, hs]
        have h2 : schedPred ⟨pid, t⟩ = false := by simp [schedPred, hs]
        rw [collectStep, if_neg hc, if_neg hs, h1, h2]
        simp

/-- All tasks of all projects in discovery order: projects in order,
each project's tasks in pre-order, tagged with the project id. -/
def allQTasks (projects : List Project) : List QTask :=
  projects.flatMap fun p => (flattenTasks p.subtasks).map fun t => (⟨p.id, t⟩ : QTask)

lemma collectTasks_foldl (projects : List Project) :
    ∀ acc : List QTask × List QTask,
      projects.foldl collectProject acc =
        (acc.1 ++ (allQTasks projects).filter unschedPred,
         acc.2 ++ (allQTasks projects).filter schedPred) := by
  induction projects with
  | nil =>
    intro acc
    simp [allQTasks]
  | cons p ps ih =>
    intro acc
    rw [List.foldl_cons, collectProject, collectStep_foldl, ih]
    simp [allQTasks, List.append_assoc]

lemma collectTasks_eq_filter (projects : List Project) :
    collectTasks projects =
      ((allQTasks projects).filter unschedPred, (allQTasks projects).filter schedPred) := by
  rw [collectTasks, collectTasks_foldl]
  simp

lemma mem_collectTasks_scheduled (projects : List Project) (qt : QTask) :
    qt ∈ (collectTasks projects).2 ↔
      ∃ p ∈ projects, ∃ t ∈ flattenTasks p.subtasks, qt = ⟨p.id, t⟩ ∧
        t.status ≠ TaskStatus.COMPLETED ∧ t.scheduledDate.isSome := by
  rw [collectTasks_eq_filter]
  simp only [List.mem_filter, allQTasks, List.mem_flatMap, List.mem_map, schedPred]
  constructor
  · rintro ⟨⟨p, hp, t, ht, rfl⟩, hpred⟩
    simp only [Bool.and_eq_true, Bool.not_eq_true', beq_eq_false_iff_ne] at hpred
    exact ⟨p, hp, t, ht, rfl, hpred.1, hpred.2⟩
  · rintro ⟨p, hp, t, ht, rfl, hst, hsd⟩
    refine ⟨⟨p, hp, t, ht, rfl⟩, ?_⟩
    simp only [Bool.and_eq_true, Bool.not_eq_true', beq_eq_false_iff_ne]
    exact ⟨hst, hsd⟩

/-! ### Task-tree lemmas -/

lemma applyPatch_est_only (n : Nat) (t : SubTask) :
    applyPatch { estimatedMinutes := some n } t = { t with estimatedMinutes := n } := rfl

lemma applyPatch_sched_clear (t : SubTask) :
    applyPatch { scheduledDate := some none } t = { t with scheduledDate := none } := rfl

theorem recursiveUpdate_eq_self : ∀ (tasks : List SubTask) (tid : String) (f : SubTask → SubTask),
    (∀ t ∈ flattenTasks tasks, t.id = tid → f t = t) → recursiveUpdate tasks tid f = tasks
  | [], _, _ => fun _ => by rw [recursiveUpdate]
  | t :: ts, tid, f => by
    intro hf
    have hmem : t ∈ flattenTasks (t :: ts) := by
      rw [flattenTasks]
      exact List.mem_cons_self _ _
    have hsub : ∀ x ∈ flattenTasks t.subtasks, x.id = tid → f x = x := by
      intro x hx
      refine hf x ?_
      rw [flattenTasks]
      exact List.mem_cons_of_mem _ (List.mem_append_left _ hx)
    have hts : ∀ x ∈ flattenTasks ts, x.id = tid → f x = x := by
      intro x hx
      refine hf x ?_
      rw [flattenTasks]
      exact List.mem_cons_of_mem _ (List.mem_append_right _ hx)
    have ih1 := recursiveUpdate_eq_self t.subtasks tid f hsub
    have ih2 := recursiveUpdate_eq_self ts tid f hts
    rw [recursiveUpdate, ih2]
    by_cases hc : t.id = tid
    · rw [if_pos hc, hf t hmem hc]
    · rw [if_neg hc, ih1]
      cases t
      rfl
termination_by tasks _ _ => sizeOf tasks
decreasing_by
  all_goals cases t
  all_goals simp
  all_goals omega

theorem findTaskById_recursiveUpdate : ∀ (tasks : List SubTask) (tid : String) (f : SubTask → SubTask),
    (∀ t, (f t).id = t.id) →
    findTaskById (recursiveUpdate tasks tid f) tid = Option.map f (findTaskById tasks tid)
  | [], _, _ => fun _ => by simp [recursiveUpdate, findTaskById]
  | t :: ts, tid, f => by
    intro hf
    have ih1 := findTaskById_recursiveUpdate t.subtasks tid f hf
    have ih2 := findTaskById_recursiveUpdate ts tid f hf
    rw [recursiveUpdate]
    by_cases hc : t.id = tid
    · rw [if_pos hc]
      rw [findTaskById, findTaskById, if_pos (by rw [hf t]; exact hc), if_pos hc]
      rfl
    · rw [if_neg hc]
      rw [findTaskById, findTaskById]
      rw [if_neg (by show t.id ≠ tid; exact hc), if_neg hc]
      cases hin : findTaskById t.subtasks tid with
      | some r =>
        cases hin1 : findTaskById (recursiveUpdate t.subtasks tid f) tid with
        | some r2 =>
          rw [hin, hin1] at ih1
          simp only [Option.map_some'] at ih1
          obtain rfl := Option.some.inj ih1
          rfl
        | none =>
          rw [hin, hin1] at ih1
          exact absurd ih1 (by simp)
      | none =>
        cases hin1 : findTaskById (recursiveUpdate t.subtasks tid f) tid with
        | some r2 =>
          rw [hin, hin1] at ih1
          exact absurd ih1 (by simp)
        | none =>
          exact ih2
termination_by tasks _ _ => sizeOf tasks
decreasing_by
  all_goals cases t
  all_goals simp
  all_goals omega

theorem sched_map_recursiveUpdate :
    ∀ (tasks : List SubTask) (tid tid2 : String) (f : SubTask → SubTask),
    (∀ t, (f t).id = t.id) → (∀ t, (f t).scheduledDate = t.scheduledDate) →
    (∀ t, (f t).subtasks = t.subtasks) →
    Option.map SubTask.scheduledDate (findTaskById (recursiveUpdate tasks tid f) tid2) =
      Option.map SubTask.scheduledDate (findTaskById tasks tid2)
  | [], _, _, _ => fun _ _ _ => by simp [recursiveUpdate, findTaskById]
  | t :: ts, tid, tid2, f => by
    intro hid hsched hsubs
    have ih1 := sched_map_recursiveUpdate t.subtasks tid tid2 f hid hsched hsubs
    have ih2 := sched_map_recursiveUpdate ts tid tid2 f hid hsched hsubs
    rw [recursiveUpdate]
    by_cases hc : t.id = tid
    · rw [if_pos hc]
      rw [findTaskById, findTaskById]
      by_cases hc2 : t.id = tid2
      · rw [if_pos (by rw [hid t]; exact hc2), if_pos hc2]
        simp [hsched t]
      · rw [if_neg (by rw [hid t]; exact hc2), if_neg hc2]
        rw [hsubs t]
        cases hin : findTaskById t.subtasks tid2 with
        | some r => rfl
        | none => exact ih2
    · rw [if_neg hc]
      rw [findTaskById, findTaskById]
      by_cases hc2 : t.id = tid2
      · rw [if_pos (by show t.id = tid2; exact hc2), if_pos hc2]
        rfl
      · rw [if_neg (by show t.id ≠ tid2; exact hc2), if_neg hc2]
        cases hin : findTaskById t.subtasks tid2 with
        | some r =>
          cases hin1 : findTaskById (recursiveUpdate t.subtasks tid f) tid2 with
          | some r2 =>
            rw [hin, hin1] at ih1
            exact ih1
          | none =>
            rw [hin, hin1] at ih1
            exact absurd ih1 (by simp)
        | none =>
          cases hin1 : findTaskById (recursiveUpdate t.subtasks tid f) tid2 with
          | some r2 =>
            rw [hin, hin1] at ih1
            exact absurd ih1 (by simp)
          | none =>
            exact ih2
termination_by tasks _ _ _ => sizeOf tasks
decreasing_by
  all_goals cases t
  all_goals simp
  all_goals omega

theorem sched_map_bulkUpdate :
    ∀ (tasks : List SubTask) (tid : String) (patch : TaskPatch) (tid2 : String),
    tid2 ≠ tid →
    Option.map SubTask.scheduledDate (findTaskById (bulkUpdateTaskInTree tasks tid patch) tid2) =
      Option.map SubTask.scheduledDate (findTaskById tasks tid2)
  | [], _, _, _ => fun _ => by simp [bulkUpdateTaskInTree, findTaskById]
  | t :: ts, tid, patch, tid2 => by
    intro hne
    have ih1 := sched_map_bulkUpdate t.subtasks tid patch tid2 hne
    have ih2 := sched_map_bulkUpdate ts tid patch tid2 hne
    rw [bulkUpdateTaskInTree]
    by_cases hc : t.id = tid
    · rw [if_pos hc]
      rw [findTaskById, findTaskById]
      have hc2 : t.id ≠ tid2 := by
        rw [hc]
        exact fun h => hne h.symm
      rw [if_neg (by show (applyPatch patch t).id ≠ tid2; exact hc2), if_neg hc2]
      have hps : (applyPatch patch t).subtasks = t.subtasks := rfl
      rw [hps]
      cases hin : findTaskById t.subtasks tid2 with
      | some r => rfl
      | none => exact ih2
    · rw [if_neg hc]
      rw [findTaskById, findTaskById]
      by_cases hc2 : t.id = tid2
      · rw [if_pos (by show t.id = tid2; exact hc2), if_pos hc2]
        rfl
      · rw [if_neg (by show t.id ≠ tid2; exact hc2), if_neg hc2]
        cases hin : findTaskById t.subtasks tid2 with
        | some r =>
          cases hin1 : findTaskById (bulkUpdateTaskInTree t.subtasks tid patch) tid2 with
          | some r2 =>
            rw [hin, hin1] at ih1
            exact ih1
          | none =>
            rw [hin, hin1] at ih1
            exact absurd ih1 (by simp)
        | none =>
          cases hin1 : findTaskById (bulkUpdateTaskInTree t.subtasks tid patch) tid2 with
          | some r2 =>
            rw [hin, hin1] at ih1
            exact absurd ih1 (by simp)
          | none =>
            exact ih2
termination_by tasks _ _ _ => sizeOf tasks
decreasing_by
  all_goals cases t
  all_goals simp
  all_goals omega

/-! ### Bulk-apply preservation lemmas -/

lemma applyUpdate_preserve (u : Update) (pid tid : String) (v : Option (Option Instant))
    (hku : updKey u ≠ (pid, tid)) :
    ∀ ps : List Project,
      (∀ p ∈ ps, p.id = pid → Option.map SubTask.scheduledDate (findTaskById p.subtasks tid) = v) →
      ∀ p ∈ applyUpdate ps u, p.id = pid →
        Option.map SubTask.scheduledDate (findTaskById p.subtasks tid) = v := by
  intro ps
  induction ps with
  | nil =>
    intro _ p hp
    rw [applyUpdate] at hp
    exact absurd hp (List.not_mem_nil p)
  | cons q qs ih =>
    intro hprev p hp hpid
    rw [applyUpdate] at hp
    by_cases hq : q.id = u.projectId
    · rw [if_pos hq] at hp
      rcases List.mem_cons.mp hp with rfl | hp
      · have hqid : q.id = pid := hpid
        have htid : tid ≠ u.taskId := by
          intro he
          apply hku
          rw [updKey, ← hq, hqid, he]
        have hgoal : Option.map SubTask.scheduledDate
            (findTaskById (bulkUpdateTaskInTree q.subtasks u.taskId
              { scheduledDate := some (some u.date) }) tid) = v := by
          rw [sched_map_bulkUpdate q.subtasks u.taskId _ tid htid]
          exact hprev q (List.mem_cons_self _ _) hqid
        exact hgoal
      · exact hprev p (List.mem_cons_of_mem _ hp) hpid
    · rw [if_neg hq] at hp
      rcases List.mem_cons.mp hp with rfl | hp
      · exact hprev p (List.mem_cons_self _ _) hpid
      · exact ih (fun r hr hrid => hprev r (List.mem_cons_of_mem _ hr) hrid) p hp hpid

lemma applyUpdates_preserve (pid tid : String) (v : Option (Option Instant)) :
    ∀ (upds : List Update) (ps : List Project),
      (∀ u ∈ upds, updKey u ≠ (pid, tid)) →
      (∀ p ∈ ps, p.id = pid → Option.map SubTask.scheduledDate (findTaskById p.subtasks tid) = v) →
      ∀ p ∈ applyUpdates ps upds, p.id = pid →
        Option.map SubTask.scheduledDate (findTaskById p.subtasks tid) = v := by
  intro upds
  induction upds with
  | nil =>
    intro ps _ hprev p hp hpid
    rw [applyUpdates, List.foldl_nil] at hp
    exact hprev p hp hpid
  | cons u us ih =>
    intro ps hkeys hprev p hp hpid
    rw [applyUpdates, List.foldl_cons] at hp
    exact ih (applyUpdate ps u) (fun w hw => hkeys w (List.mem_cons_of_mem _ hw))
      (applyUpdate_preserve u pid tid v (hkeys u (List.mem_cons_self _ _)) ps hprev) p hp hpid

/-! ### Resize snapping arithmetic -/

lemma jsRound_jsRound_div_15 (h : ℚ) : jsRound ((jsRound h : ℚ) / 15) = jsRound (h / 15) := by
  rw [jsRound, jsRound, jsRound]
  have ha : (⌊h + 1 / 2⌋ : ℚ) ≤ h + 1 / 2 := Int.floor_le _
  have ha2 : h + 1 / 2 < ⌊h + 1 / 2⌋ + 1 := Int.lt_floor_add_one _
  apply le_antisymm
  · apply Int.le_floor.mpr
    have h1 : (⌊(⌊h + 1 / 2⌋ : ℚ) / 15 + 1 / 2⌋ : ℚ) ≤ (⌊h + 1 / 2⌋ : ℚ) / 15 + 1 / 2 :=
      Int.floor_le _
    have hA : 15 * ⌊(⌊h + 1 / 2⌋ : ℚ) / 15 + 1 / 2⌋ - 7 ≤ ⌊h + 1 / 2⌋ := by
      by_contra hcon
      push_neg at hcon
      have hcast : ((⌊h + 1 / 2⌋ : ℤ) : ℚ) ≤
          ((15 * ⌊(⌊h + 1 / 2⌋ : ℚ) / 15 + 1 / 2⌋ - 8 : ℤ) : ℚ) := by
        exact_mod_cast (by omega :
          (⌊h + 1 / 2⌋ : ℤ) ≤ 15 * ⌊(⌊h + 1 / 2⌋ : ℚ) / 15 + 1 / 2⌋ - 8)
      push_cast at hcast
      linarith
    have hAc : ((15 * ⌊(⌊h + 1 / 2⌋ : ℚ) / 15 + 1 / 2⌋ - 7 : ℤ) : ℚ) ≤
        ((⌊h + 1 / 2⌋ : ℤ) : ℚ) := by exact_mod_cast hA
    push_cast at hAc
    linarith
  · apply Int.le_floor.mpr
    have h2 : (⌊h / 15 + 1 / 2⌋ : ℚ) ≤ h / 15 + 1 / 2 := Int.floor_le _
    have h3 : 15 * ⌊h / 15 + 1 / 2⌋ - 7 ≤ ⌊h + 1 / 2⌋ := by
      apply Int.le_floor.mpr
      push_cast
      linarith
    have h4 : ((15 * ⌊h / 15 + 1 / 2⌋ - 7 : ℤ) : ℚ) ≤ ((⌊h + 1 / 2⌋ : ℤ) : ℚ) := by
      exact_mod_cast h3
    push_cast at h4
    linarith

lemma commitSnappedMinutes_eq (h : ℚ) :
    commitSnappedMinutes h = max 15 (jsRound (h / 15) * 15) := by
  rw [commitSnappedMinutes, jsRound_jsRound_div_15]

lemma commitSnappedMinutes_ge (h : ℚ) : 15 ≤ commitSnappedMinutes h := le_max_left _ _

lemma commitSnappedMinutes_dvd (h : ℚ) : (15 : Int) ∣ commitSnappedMinutes h := by
  rw [commitSnappedMinutes]
  rcases max_choice (15 : Int) (jsRound ((jsRound h : ℚ) / 15) * 15) with he | he
  · rw [he]
  · rw [he]
    exact dvd_mul_left 15 _

/-! ### Concrete fixtures used by the witnesses -/

/-- A 120-minute task scheduled at 23:20, whose interval runs past
midnight. -/
def lateTask : SubTask := ⟨"late", "Late task", TaskStatus.TODO, 120, some ⟨0, 1400⟩, []⟩

/-- A completed 60-minute task scheduled at 09:00. -/
def doneTask : SubTask := ⟨"done", "Done task", TaskStatus.COMPLETED, 60, some ⟨0, 540⟩, []⟩

/-- A project holding only the completed scheduled task. -/
def doneProject : Project := ⟨"p", "P", "", TaskStatus.IN_PROGRESS, [doneTask]⟩

/-- A zero-duration, non-completed task scheduled at 09:00. -/
def zeroTask : SubTask := ⟨"zero", "Zero task", TaskStatus.TODO, 0, some ⟨0, 540⟩, []⟩

/-- A fresh unscheduled 15-minute task. -/
def freshTask : SubTask := ⟨"a", "Task A", TaskStatus.TODO, 15, none, []⟩

/-- A second fresh unscheduled 20-minute task. -/
def freshTask2 : SubTask := ⟨"b", "Task B", TaskStatus.TODO, 20, none, []⟩

/-- Project with the zero-duration scheduled task and one fresh task. -/
def cexProject : Project := ⟨"p", "P", "", TaskStatus.IN_PROGRESS, [zeroTask, freshTask]⟩

/-- Project with two fresh unscheduled tasks. -/
def twoTaskProject : Project := ⟨"p", "P", "", TaskStatus.IN_PROGRESS, [freshTask, freshTask2]⟩

/-- An unscheduled task too long for the whole 09:00-17:00 window. -/
def hugeTask : SubTask := ⟨"huge", "Huge task", TaskStatus.TODO, 600, none, []⟩

/-- Project holding only the infeasibly long unscheduled task. -/
def hugeProject : Project := ⟨"p", "P", "", TaskStatus.IN_PROGRESS, [hugeTask]⟩

/-- Project with one scheduled 20-minute task (resize fixture). -/
def resizeProject : Project :=
  ⟨"p", "P", "", TaskStatus.IN_PROGRESS, [⟨"t", "T", TaskStatus.TODO, 20, some ⟨0, 600⟩, []⟩]⟩

/-! ### Claim theorems -/

/-- C5: Occupancy marking is clamped at the day boundary: a cell of the
grid built by the occupancy fill is busy exactly when it is a minute
`m < 1440` of a horizon day covered by the `[start-minute,
start-minute + estimatedMinutes)` interval of some scheduled task on
that day; in particular no cell at an index `≥ 1440` is ever marked, a
task whose interval would run past midnight is truncated at the day
boundary, and it never marks cells of the next day. -/
theorem occupancy_fill_clamped (horizon : List Int) (tasks : List SubTask) :
    (∀ (d : Int) (m : Nat), 24 * 60 ≤ m → buildOccupied horizon tasks d m = false) ∧
    (∀ (d : Int) (m : Nat), buildOccupied horizon tasks d m = true ↔
      ∃ t ∈ tasks, ∃ inst, t.scheduledDate = some inst ∧ inst.day ∈ horizon ∧
        d = inst.day ∧ inst.minute ≤ m ∧ m < inst.minute + t.estimatedMinutes ∧ m < 24 * 60) := by
  constructor
  · intro d m hm
    cases hb : buildOccupied horizon tasks d m
    · rfl
    · obtain ⟨t, -, inst, -, -, -, -, -, hlt⟩ :=
        (buildOccupied_eq_true_iff horizon tasks d m).mp hb
      omega
  · intro d m
    exact buildOccupied_eq_true_iff horizon tasks d m

/-- C5 witness: the late task (23:20, 120 minutes) marks minute 1439 but
neither minute 1500 of its day nor minute 20 of the next day. -/
theorem occupancy_fill_clamped_witness :
    buildOccupied [0, 1] [lateTask] 0 1439 = true ∧
    buildOccupied [0, 1] [lateTask] 0 1500 = false ∧
    buildOccupied [0, 1] [lateTask] 1 20 = false := by
  refine ⟨((occupancy_fill_clamped [0, 1] [lateTask]).2 0 1439).mpr
    ⟨lateTask, by simp, ⟨0, 1400⟩, rfl, by decide, rfl, by decide, by decide, by decide⟩,
    (occupancy_fill_clamped [0, 1] [lateTask]).1 0 1500 (by omega), ?_⟩
  cases hb : buildOccupied [0, 1] [lateTask] 1 20
  · rfl
  · obtain ⟨t, ht, inst, hinst, -, hd, -, -, -⟩ :=
      ((occupancy_fill_clamped [0, 1] [lateTask]).2 1 20).mp hb
    rw [List.mem_singleton] at ht
    subst ht
    rw [show lateTask.scheduledDate = some ⟨0, 1400⟩ from rfl] at hinst
    obtain rfl := Option.some.inj hinst
    exact absurd hd (by decide)

/-- C4: Completed-task exclusion: the occupancy grid built from the
scheduled list of the `unscheduledTasks`/`scheduledTasks` partition is
busy exactly at minutes covered by non-COMPLETED scheduled tasks, and
neither queue of the partition ever contains a COMPLETED task — so a
completed task's former slot is free and the scheduler may place a new
task into it. -/
theorem completed_tasks_excluded (projects : List Project) (horizon : List Int) :
    (∀ (d : Int) (m : Nat),
      buildOccupied horizon ((collectTasks projects).2.map QTask.task) d m = true ↔
        ∃ p ∈ projects, ∃ t ∈ flattenTasks p.subtasks, t.status ≠ TaskStatus.COMPLETED ∧
          ∃ inst, t.scheduledDate = some inst ∧ inst.day ∈ horizon ∧ d = inst.day ∧
            inst.minute ≤ m ∧ m < inst.minute + t.estimatedMinutes ∧ m < 24 * 60) ∧
    (∀ qt ∈ (collectTasks projects).1, qt.task.status ≠ TaskStatus.COMPLETED) ∧
    (∀ qt ∈ (collectTasks projects).2, qt.task.status ≠ TaskStatus.COMPLETED) := by
  refine ⟨?_, ?_, ?_⟩
  · intro d m
    rw [buildOccupied_eq_true_iff]
    constructor
    · rintro ⟨t, htm, inst, hinst, hd1, hd2, hd3, hd4, hd5⟩
      rw [List.mem_map] at htm
      obtain ⟨qt, hqt, rfl⟩ := htm
      obtain ⟨p, hp, t2, ht2, rfl, hst, -⟩ := (mem_collectTasks_scheduled projects qt).mp hqt
      exact ⟨p, hp, t2, ht2, hst, inst, hinst, hd1, hd2, hd3, hd4, hd5⟩
    · rintro ⟨p, hp, t, ht, hst, inst, hinst, hd1, hd2, hd3, hd4, hd5⟩
      refine ⟨t, ?_, inst, hinst, hd1, hd2, hd3, hd4, hd5⟩
      rw [List.mem_map]
      refine ⟨⟨p.id, t⟩, ?_, rfl⟩
      exact (mem_collectTasks_scheduled projects ⟨p.id, t⟩).mpr
        ⟨p, hp, t, ht, rfl, hst, by rw [hinst]; rfl⟩
  · intro qt hqt
    rw [collectTasks_eq_filter] at hqt
    obtain ⟨-, hpred⟩ := List.mem_filter.mp hqt
    simp only [unschedPred, Bool.and_eq_true, Bool.not_eq_true', beq_eq_false_iff_ne] at hpred
    exact hpred.1
  · intro qt hqt
    obtain ⟨p, hp, t, ht, heq, hst, hsd⟩ := (mem_collectTasks_scheduled projects qt).mp hqt
    rw [heq]
    exact hst

/-- C4 witness: with a project whose only task is a completed 60-minute
task scheduled at 09:00, the occupancy grid is free at 09:00. -/
theorem completed_tasks_excluded_witness :
    buildOccupied [0] ((collectTasks [doneProject]).2.map QTask.task) 0 540 = false := by
  cases hb : buildOccupied [0] ((collectTasks [doneProject]).2.map QTask.task) 0 540
  · rfl
  · obtain ⟨p, hp, t, ht, hst, -⟩ := ((completed_tasks_excluded [doneProject] [0]).1 0 540).mp hb
    rw [List.mem_singleton] at hp
    subst hp
    simp only [doneProject, doneTask, flattenTasks, List.append_nil, List.mem_singleton] at ht
    subst ht
    exact absurd rfl hst

/-- C2: Greedy first-fit placement order: the unscheduled queue is the
non-completed, unscheduled tasks in project order then tree pre-order;
a free-slot check means every minute of `[start, start + dur)` is
unmarked; the one-day scan returns exactly the least 15-minute-aligned
start minute `m` with `540 ≤ m` and `m + dur ≤ 1020` whose whole
interval is free; the day loop tries horizon days in order; and each
queue task is processed with effective duration
`max 15 estimatedMinutes`, appending exactly the found placement (or
nothing). -/
theorem autoSchedule_firstFit :
    (∀ projects : List Project, collectTasks projects =
        ((allQTasks projects).filter unschedPred, (allQTasks projects).filter schedPred)) ∧
    (∀ (g : Grid) (day : Int) (start dur : Nat),
        isFreeAt g day start dur = true ↔ ∀ k, k < dur → g day (start + k) = false) ∧
    (∀ (g : Grid) (day : Int) (dur m : Nat),
        scanDay g day dur = some m ↔
          ((∃ k, m = 540 + 15 * k) ∧ m + dur ≤ 1020 ∧ isFreeAt g day m dur = true ∧
            ∀ m2, (∃ k, m2 = 540 + 15 * k) → m2 + dur ≤ 1020 → m2 < m →
              isFreeAt g day m2 dur = false)) ∧
    (∀ (g : Grid) (day : Int) (rest : List Int) (dur : Nat),
        findSlot g (day :: rest) dur =
          match scanDay g day dur with
          | some m => some (day, m)
          | none => findSlot g rest dur) ∧
    (∀ (horizon : List Int) (st : Grid × List Update) (qt : QTask),
        (autoStep horizon st qt).2 = st.2 ++
          (match findSlot st.1 horizon (max 15 qt.task.estimatedMinutes) with
           | some (day, m) => [⟨qt.projectId, qt.task.id, ⟨day, m⟩⟩]
           | none => [])) ∧
    (∀ (horizon : List Int) (queue : List QTask) (g0 : Grid),
        autoScheduleRun horizon queue g0 = queue.foldl (autoStep horizon) (g0, [])) := by
  refine ⟨collectTasks_eq_filter, isFreeAt_eq_true_iff, scanDay_eq_some_iff,
    fun _ _ _ _ => rfl, ?_, fun _ _ _ => rfl⟩
  intro horizon st qt
  cases hfs : findSlot st.1 horizon (max 15 qt.task.estimatedMinutes) with
  | none => simp [autoStep, hfs]
  | some dm =>
    obtain ⟨day, m⟩ := dm
    simp [autoStep, hfs]

/-- C2 witness: on an empty grid the one-day scan for a 20-minute task
returns the first candidate, 09:00 (minute 540). -/
theorem autoSchedule_firstFit_witness : scanDay emptyGrid 0 20 = some 540 := by
  refine (autoSchedule_firstFit.2.2.1 emptyGrid 0 20 540).mpr
    ⟨⟨0, by decide⟩, by decide, by decide, ?_⟩
  intro m2 hk hle hlt
  obtain ⟨k, rfl⟩ := hk
  omega

/-- C3: Working-hours containment: every update recorded by an
auto-scheduler run stems from a queue task and satisfies
`540 ≤ start-minute` and `start-minute + max 15 estimatedMinutes ≤
1020`. -/
theorem autoSchedule_working_hours (horizon : List Int) (queue : List QTask) (g0 : Grid) :
    ∀ u ∈ (autoScheduleRun horizon queue g0).2, ∃ qt ∈ queue, qtKey qt = updKey u ∧
      540 ≤ u.date.minute ∧ u.date.minute + max 15 qt.task.estimatedMinutes ≤ 1020 := by
  intro u hu
  obtain ⟨-, hupd, -⟩ := autoScheduleRun_runInv horizon queue g0
  obtain ⟨qt, hqt, hkey, -, h540, hbound, -, -⟩ := hupd u hu
  exact ⟨qt, hqt, hkey, h540, hbound⟩

/-- C3 witness: the run that places the fresh 15-minute task at
09:00 of day 0 satisfies the containment bounds. -/
theorem autoSchedule_working_hours_witness :
    ∃ qt ∈ [QTask.mk "p" freshTask], qtKey qt = updKey ⟨"p", "a", ⟨0, 540⟩⟩ ∧
      540 ≤ (Update.mk "p" "a" ⟨0, 540⟩).date.minute ∧
      (Update.mk "p" "a" ⟨0, 540⟩).date.minute + max 15 qt.task.estimatedMinutes ≤ 1020 :=
  autoSchedule_working_hours [0] [QTask.mk "p" freshTask] emptyGrid ⟨"p", "a", ⟨0, 540⟩⟩
    (by decide)

/-- C1 counterexample: taking the claim's parenthetical at face value —
all durations, including those of pre-existing scheduled tasks, read as
the effective placement duration `max(15, estimatedMinutes)` — the
claim is false.  The occupancy fill marks a pre-existing task's raw
`estimatedMinutes`, so a scheduled, non-completed task with
`estimatedMinutes = 0` at 09:00 marks nothing, and the run places a
fresh 15-minute task at the same minute 540: minute 540 then lies both
in the placed task's interval `[540, 555)` and in the pre-existing
task's effective-duration interval `[540, 540 + max 15 0) = [540,
555)`, so the two intervals intersect. -/
theorem autoSchedule_no_overlap_counterexample :
    (collectTasks [cexProject]).1 = [⟨"p", freshTask⟩] ∧
    (collectTasks [cexProject]).2 = [⟨"p", zeroTask⟩] ∧
    (autoScheduleRun [0] (collectTasks [cexProject]).1
        (buildOccupied [0] ((collectTasks [cexProject]).2.map QTask.task))).2 =
      [⟨"p", "a", ⟨0, 540⟩⟩] ∧
    zeroTask.scheduledDate = some ⟨0, 540⟩ ∧
    zeroTask.status ≠ TaskStatus.COMPLETED ∧
    ((Instant.mk 0 540).minute ≤ 540 ∧
      540 < (Instant.mk 0 540).minute + max 15 zeroTask.estimatedMinutes) ∧
    ((Update.mk "p" "a" ⟨0, 540⟩).date.minute ≤ 540 ∧
      540 < (Update.mk "p" "a" ⟨0, 540⟩).date.minute + max 15 freshTask.estimatedMinutes) := by
  have h1 : collectTasks [cexProject] = ([⟨"p", freshTask⟩], [⟨"p", zeroTask⟩]) := by
    simp [collectTasks, collectProject, collectStep, cexProject, zeroTask, freshTask, flattenTasks]
  refine ⟨by rw [h1], by rw [h1], ?_, rfl, by decide, by decide, by decide⟩
  rw [h1]
  decide

/-- C1 (amended): within one auto-scheduler run on the partition of a
project list, the placed updates' intervals — with the effective
placement duration `max 15 estimatedMinutes` of the matching queue task
— are pairwise non-intersecting per day, and no placed interval
intersects the raw `[start, start + estimatedMinutes)` interval of a
pre-existing scheduled, non-completed task on the same day (pre-existing
tasks block with their raw `estimatedMinutes` as marked in the grid,
not with `max 15 estimatedMinutes`).  Queue identities are assumed
distinct so that each update's duration is well defined. -/
theorem autoSchedule_no_overlap (projects : List Project) (horizon : List Int)
    (hnd : ((collectTasks projects).1.map qtKey).Nodup) :
    List.Pairwise (fun u1 u2 => u1.date.day = u2.date.day →
        ∀ m, u1.date.minute ≤ m →
          m < u1.date.minute + updDur (collectTasks projects).1 u1 →
          u2.date.minute ≤ m →
          m < u2.date.minute + updDur (collectTasks projects).1 u2 → False)
      (autoScheduleRun horizon (collectTasks projects).1
        (buildOccupied horizon ((collectTasks projects).2.map QTask.task))).2 ∧
    ∀ u ∈ (autoScheduleRun horizon (collectTasks projects).1
        (buildOccupied horizon ((collectTasks projects).2.map QTask.task))).2,
      ∀ qt ∈ (collectTasks projects).2, ∀ inst, qt.task.scheduledDate = some inst →
        inst.day = u.date.day →
        ∀ m, u.date.minute ≤ m → m < u.date.minute + updDur (collectTasks projects).1 u →
          inst.minute ≤ m → m < inst.minute + qt.task.estimatedMinutes → False := by
  obtain ⟨hmono, hupd, hpair⟩ := autoScheduleRun_runInv horizon (collectTasks projects).1
    (buildOccupied horizon ((collectTasks projects).2.map QTask.task))
  constructor
  · refine hpair.imp ?_
    rintro u1 u2 ⟨d1, d2, ⟨qt1, hqt1, hkey1, rfl⟩, ⟨qt2, hqt2, hkey2, rfl⟩, hsep⟩
    intro hdd m hm1 hm2 hm3 hm4
    rw [updDur_eq (collectTasks projects).1 qt1 u1 hnd hqt1 hkey1] at hm2
    rw [updDur_eq (collectTasks projects).1 qt2 u2 hnd hqt2 hkey2] at hm4
    exact hsep hdd m hm1 hm2 hm3 hm4
  · intro u hu qt hqts inst hinst hday m hm1 hm2 hm3 hm4
    obtain ⟨qt1, hqt1, hkey1, hdayh, h540, hbound, hbusy, hfree0⟩ := hupd u hu
    rw [updDur_eq (collectTasks projects).1 qt1 u hnd hqt1 hkey1] at hm2
    have hfree := hfree0 (m - u.date.minute) (by omega)
    rw [Nat.add_sub_cancel' hm1] at hfree
    have hbusy0 : buildOccupied horizon ((collectTasks projects).2.map QTask.task)
        u.date.day m = true := by
      refine (buildOccupied_eq_true_iff _ _ _ _).mpr
        ⟨qt.task, List.mem_map_of_mem QTask.task hqts, inst, hinst, ?_, hday.symm, hm3, hm4, ?_⟩
      · rw [hday]
        exact hdayh
      · have hb := updDur_eq (collectTasks projects).1 qt1 u hnd hqt1 hkey1
        omega
    rw [hfree] at hbusy0
    exact absurd hbusy0 (by simp)

/-- C1 witness: a run over a project with two fresh unscheduled tasks
has distinct queue identities and pairwise non-intersecting placements. -/
theorem autoSchedule_no_overlap_witness :
    ((collectTasks [twoTaskProject]).1.map qtKey).Nodup ∧
    List.Pairwise (fun u1 u2 => u1.date.day = u2.date.day →
        ∀ m, u1.date.minute ≤ m →
          m < u1.date.minute + updDur (collectTasks [twoTaskProject]).1 u1 →
          u2.date.minute ≤ m →
          m < u2.date.minute + updDur (collectTasks [twoTaskProject]).1 u2 → False)
      (autoScheduleRun [0] (collectTasks [twoTaskProject]).1
        (buildOccupied [0] ((collectTasks [twoTaskProject]).2.map QTask.task))).2 := by
  have h1 : collectTasks [twoTaskProject] = ([⟨"p", freshTask⟩, ⟨"p", freshTask2⟩], []) := by
    simp [collectTasks, collectProject, collectStep, twoTaskProject, freshTask, freshTask2,
      flattenTasks]
  have hnd : ((collectTasks [twoTaskProject]).1.map qtKey).Nodup := by
    rw [h1]
    decide
  exact ⟨hnd, (autoSchedule_no_overlap [twoTaskProject] [0] hnd).1⟩

/-- C6: Infeasible placement is silent: if a queue task finds no free
slot on any horizon day when its turn comes, the run records no update
for its identity, and after the bulk apply of the run's updates the
task's scheduled instant is unchanged (in particular it remains absent
when it was absent) — the task stays in the backlog.  (The run is a
total function; no exception can be raised.) -/
theorem autoSchedule_infeasible_silent (horizon : List Int) (pre post : List QTask)
    (qt : QTask) (g0 : Grid) (projects : List Project)
    (hnd : ((pre ++ qt :: post).map qtKey).Nodup)
    (hnone : findSlot ((pre.foldl (autoStep horizon) (g0, [])).1) horizon
      (max 15 qt.task.estimatedMinutes) = none) :
    (∀ u ∈ (autoScheduleRun horizon (pre ++ qt :: post) g0).2, updKey u ≠ qtKey qt) ∧
    ∀ v : Option (Option Instant),
      (∀ p ∈ projects, p.id = qt.projectId →
        Option.map SubTask.scheduledDate (findTaskById p.subtasks qt.task.id) = v) →
      ∀ p ∈ applyUpdates projects (autoScheduleRun horizon (pre ++ qt :: post) g0).2,
        p.id = qt.projectId →
        Option.map SubTask.scheduledDate (findTaskById p.subtasks qt.task.id) = v := by
  have hstep : autoStep horizon (pre.foldl (autoStep horizon) (g0, [])) qt
      = pre.foldl (autoStep horizon) (g0, []) := by
    rcases hpr : pre.foldl (autoStep horizon) (g0, []) with ⟨g1, acc1⟩
    rw [hpr] at hnone
    simp only at hnone
    simp [autoStep, hnone]
  have hrun : autoScheduleRun horizon (pre ++ qt :: post) g0
      = post.foldl (autoStep horizon) (pre.foldl (autoStep horizon) (g0, [])) := by
    rw [autoScheduleRun, List.foldl_append, List.foldl_cons, hstep]
  rw [List.map_append, List.map_cons, List.nodup_append] at hnd
  obtain ⟨hnd1, hnd2, hdisj⟩ := hnd
  rw [List.nodup_cons] at hnd2
  have hpart1 : ∀ u ∈ (autoScheduleRun horizon (pre ++ qt :: post) g0).2,
      updKey u ≠ qtKey qt := by
    intro u hu heq
    rw [hrun] at hu
    rcases hpr : pre.foldl (autoStep horizon) (g0, []) with ⟨g1, acc1⟩
    rw [hpr] at hu
    rw [foldl_autoStep_acc horizon post g1 acc1] at hu
    rcases List.mem_append.mp hu with hu | hu
    · have hinv := (autoScheduleRun_runInv horizon pre g0).2.1
      rw [show autoScheduleRun horizon pre g0 = pre.foldl (autoStep horizon) (g0, []) from rfl,
        hpr] at hinv
      obtain ⟨q, hq, hqkey, -⟩ := hinv u hu
      exact hdisj (by rw [← heq, ← hqkey]; exact List.mem_map_of_mem qtKey hq)
        (List.mem_cons_self _ _)
    · have hinv := (autoScheduleRun_runInv horizon post g1).2.1
      obtain ⟨q, hq, hqkey, -⟩ := hinv u hu
      exact hnd2.1 (by rw [← heq, ← hqkey]; exact List.mem_map_of_mem qtKey hq)
  refine ⟨hpart1, ?_⟩
  intro v hprev
  exact applyUpdates_preserve qt.projectId qt.task.id v
    (autoScheduleRun horizon (pre ++ qt :: post) g0).2 projects
    (fun u hu => hpart1 u hu) hprev

/-- C6 witness: the 600-minute task fits nowhere in a single day, the
run records nothing, and after applying the run's updates the task is
still unscheduled. -/
theorem autoSchedule_infeasible_silent_witness :
    (∀ u ∈ (autoScheduleRun [0] ([] ++ QTask.mk "p" hugeTask :: []) emptyGrid).2,
      updKey u ≠ qtKey ⟨"p", hugeTask⟩) ∧
    ∀ p ∈ applyUpdates [hugeProject]
        (autoScheduleRun [0] ([] ++ QTask.mk "p" hugeTask :: []) emptyGrid).2,
      p.id = "p" →
      Option.map SubTask.scheduledDate (findTaskById p.subtasks "huge") = some none := by
  have h := autoSchedule_infeasible_silent [0] [] [] ⟨"p", hugeTask⟩ emptyGrid [hugeProject]
    (by decide) (by decide)
  refine ⟨h.1, ?_⟩
  refine h.2 (some none) ?_
  intro p hp hpid
  rw [List.mem_singleton] at hp
  subst hp
  simp [findTaskById, hugeProject, hugeTask]

/-! ### Interactive placement helper lemmas -/

/-- The minute-of-day an interactive drop schedules at: minute 0 of the
given hour for hour-grid drops, midnight for whole-day drops. -/
def dropMinute (hour : Option Nat) : Nat :=
  match hour with
  | some h => h * 60
  | none => 0

lemma forall₂_handleScheduleTask (projects : List Project) (pid tid : String) (date : Instant) :
    List.Forall₂ (fun p q =>
        (p.id ≠ pid → q = p) ∧
        (p.id = pid →
          q.id = p.id ∧ q.title = p.title ∧ q.description = p.description ∧
          q.status = p.status ∧
          q.subtasks = recursiveUpdate p.subtasks tid
            (fun t => { t with scheduledDate := some date }) ∧
          findTaskById q.subtasks tid = Option.map
            (fun t => { t with scheduledDate := some date })
            (findTaskById p.subtasks tid)))
      projects (handleScheduleTask projects pid tid date) := by
  induction projects with
  | nil => exact List.Forall₂.nil
  | cons p ps ih =>
    rw [handleScheduleTask, List.map_cons]
    refine List.Forall₂.cons ⟨?_, ?_⟩ ih
    · intro hne
      rw [if_neg hne]
    · intro hpe
      rw [if_pos hpe]
      refine ⟨rfl, rfl, rfl, rfl, rfl, ?_⟩
      exact findTaskById_recursiveUpdate p.subtasks tid _ (fun t => rfl)

lemma forall₂_handleUpdateTask_est (projects : List Project) (pid tid : String) (n : Nat) :
    List.Forall₂ (fun p q =>
        (p.id ≠ pid → q = p) ∧
        (p.id = pid →
          findTaskById q.subtasks tid = Option.map
            (fun t => { t with estimatedMinutes := n }) (findTaskById p.subtasks tid) ∧
          ∀ tid2, Option.map SubTask.scheduledDate (findTaskById q.subtasks tid2) =
            Option.map SubTask.scheduledDate (findTaskById p.subtasks tid2)))
      projects (handleUpdateTask projects pid tid { estimatedMinutes := some n }) := by
  induction projects with
  | nil => exact List.Forall₂.nil
  | cons p ps ih =>
    rw [handleUpdateTask, List.map_cons]
    refine List.Forall₂.cons ⟨?_, ?_⟩ ih
    · intro hne
      rw [if_neg hne]
    · intro hpe
      rw [if_pos hpe]
      constructor
      · have hmap := findTaskById_recursiveUpdate p.subtasks tid
          (applyPatch { estimatedMinutes := some n }) (fun t => rfl)
        rw [show (applyPatch { estimatedMinutes := some n }) =
          (fun t => { t with estimatedMinutes := n }) from funext (applyPatch_est_only n)] at hmap
        exact hmap
      · intro tid2
        exact sched_map_recursiveUpdate p.subtasks tid tid2 _
          (fun t => rfl) (fun t => rfl) (fun t => rfl)

/-- C7: Drag-to-schedule is an unconditional overwrite: for any drop of
a valid task payload onto a calendar cell `(day, hour?)`, on any project
state whatsoever (no occupancy is consulted), the matching project has
the matching task's `scheduledDate` overwritten to that day at minute
`hour*60` (hour-grid drop) or minute 0 (whole-day drop) and no other
field of the task or of any other project changed. -/
theorem dragSchedule_unconditional_overwrite (projects : List Project) (day : Int)
    (hour : Option Nat) (pid tid : String) :
    List.Forall₂ (fun p q =>
        (p.id ≠ pid → q = p) ∧
        (p.id = pid →
          q.id = p.id ∧ q.title = p.title ∧ q.description = p.description ∧
          q.status = p.status ∧
          q.subtasks = recursiveUpdate p.subtasks tid
            (fun t => { t with scheduledDate := some ⟨day, dropMinute hour⟩ }) ∧
          findTaskById q.subtasks tid = Option.map
            (fun t => { t with scheduledDate := some ⟨day, dropMinute hour⟩ })
            (findTaskById p.subtasks tid)))
      projects (handleDrop projects day hour (some (pid, tid))) := by
  have hd : handleDrop projects day hour (some (pid, tid)) =
      handleScheduleTask projects pid tid ⟨day, dropMinute hour⟩ := rfl
  rw [hd]
  exact forall₂_handleScheduleTask projects pid tid _

/-- C7 witness: dropping the resize-fixture task onto day 5, hour 10
overwrites its scheduled instant to minute 600 of day 5. -/
theorem dragSchedule_unconditional_overwrite_witness :
    List.Forall₂ (fun p q =>
        (p.id ≠ "p" → q = p) ∧
        (p.id = "p" →
          q.id = p.id ∧ q.title = p.title ∧ q.description = p.description ∧
          q.status = p.status ∧
          q.subtasks = recursiveUpdate p.subtasks "t"
            (fun t => { t with scheduledDate := some ⟨5, dropMinute (some 10)⟩ }) ∧
          findTaskById q.subtasks "t" = Option.map
            (fun t => { t with scheduledDate := some ⟨5, dropMinute (some 10)⟩ })
            (findTaskById p.subtasks "t")))
      [resizeProject] (handleDrop [resizeProject] 5 (some 10) (some ("p", "t"))) :=
  dragSchedule_unconditional_overwrite [resizeProject] 5 (some 10) "p" "t"

/-- C8: Resize commit snapping: on release of a resize drag with
candidate height `h = max 15 (startHeight + delta)`, the committed
duration equals `max 15 (round (h / 15) * 15)` (the code's successive
roundings `round (round h / 15) * 15` coincide with the single
rounding), is at least 15 and a multiple of 15, and the commit patches
only `estimatedMinutes` — the found task equals the original with only
that field replaced, and every task's scheduled instant is unchanged. -/
theorem resize_commit_snapping (startHeight delta : ℚ) (projects : List Project)
    (pid tid : String) :
    commitSnappedMinutes (candidateHeight startHeight delta) =
      max 15 (jsRound (candidateHeight startHeight delta / 15) * 15) ∧
    15 ≤ commitSnappedMinutes (candidateHeight startHeight delta) ∧
    (15 : Int) ∣ commitSnappedMinutes (candidateHeight startHeight delta) ∧
    handleResizeMouseUp projects pid tid (some (candidateHeight startHeight delta)) =
      handleUpdateTask projects pid tid
        { estimatedMinutes := some (commitSnappedMinutes (candidateHeight startHeight delta)).toNat } ∧
    List.Forall₂ (fun p q =>
        (p.id ≠ pid → q = p) ∧
        (p.id = pid →
          findTaskById q.subtasks tid = Option.map
            (fun t => { t with estimatedMinutes :=
              (commitSnappedMinutes (candidateHeight startHeight delta)).toNat })
            (findTaskById p.subtasks tid) ∧
          ∀ tid2, Option.map SubTask.scheduledDate (findTaskById q.subtasks tid2) =
            Option.map SubTask.scheduledDate (findTaskById p.subtasks tid2)))
      projects (handleResizeMouseUp projects pid tid (some (candidateHeight startHeight delta))) := by
  have hpos : (0 : ℚ) < candidateHeight startHeight delta :=
    lt_of_lt_of_le (by norm_num) (le_max_left 15 (startHeight + delta))
  have hne : candidateHeight startHeight delta ≠ 0 := ne_of_gt hpos
  have hmu : handleResizeMouseUp projects pid tid (some (candidateHeight startHeight delta)) =
      handleUpdateTask projects pid tid
        { estimatedMinutes := some (commitSnappedMinutes (candidateHeight startHeight delta)).toNat } := by
    rw [handleResizeMouseUp, if_neg hne]
  refine ⟨commitSnappedMinutes_eq _, commitSnappedMinutes_ge _, commitSnappedMinutes_dvd _,
    hmu, ?_⟩
  rw [hmu]
  exact forall₂_handleUpdateTask_est projects pid tid _

/-- C8 witness: releasing a drag that started at height 30 and moved 22
pixels commits `max 15 (round ((max 15 (30 + 22)) / 15) * 15)` minutes,
at least 15 and a multiple of 15. -/
theorem resize_commit_snapping_witness :
    commitSnappedMinutes (candidateHeight 30 22) =
      max 15 (jsRound (candidateHeight 30 22 / 15) * 15) ∧
    15 ≤ commitSnappedMinutes (candidateHeight 30 22) ∧
    (15 : Int) ∣ commitSnappedMinutes (candidateHeight 30 22) := by
  obtain ⟨h1, h2, h3, -⟩ := resize_commit_snapping 30 22 [resizeProject] "p" "t"
  exact ⟨h1, h2, h3⟩

/-- C9 helper: patching every matching task of the matching project with
`{ scheduledDate: undefined }` is the identity when every matching task
is already unscheduled. -/
lemma handleUpdateTask_unsched_eq_self (pid tid : String) : ∀ projects : List Project,
    (∀ p ∈ projects, p.id = pid → ∀ t ∈ flattenTasks p.subtasks, t.id = tid →
      t.scheduledDate = none) →
    handleUpdateTask projects pid tid { scheduledDate := some none } = projects := by
  intro projects
  induction projects with
  | nil =>
    intro _
    rfl
  | cons p ps ih =>
    intro h
    rw [handleUpdateTask, List.map_cons]
    have htail : List.map (fun p => if p.id = pid then
        { p with subtasks := recursiveUpdate p.subtasks tid (applyPatch { scheduledDate := some none }) } else p) ps = ps := by
      have := ih (fun q hq => h q (List.mem_cons_of_mem p hq))
      rw [handleUpdateTask] at this
      exact this
    rw [htail]
    by_cases hc : p.id = pid
    · rw [if_pos hc]
      have hsubs : recursiveUpdate p.subtasks tid (applyPatch { scheduledDate := some none })
          = p.subtasks := by
        apply recursiveUpdate_eq_self
        intro t ht htid
        rw [applyPatch_sched_clear, ← h p (List.mem_cons_self _ _) hc t ht htid]
        cases t
        rfl
      rw [hsubs]
    · rw [if_neg hc]

/-- C9: Idempotence of unschedule: dropping a task payload on the
backlog target when every matching task of the matching project is
already unscheduled changes nothing — the resulting project list is
equal to the original, so the task stays unscheduled and every other
field of every task of every project is unchanged. -/
theorem unschedule_idempotent (projects : List Project) (pid tid : String)
    (h : ∀ p ∈ projects, p.id = pid → ∀ t ∈ flattenTasks p.subtasks, t.id = tid →
      t.scheduledDate = none) :
    handleUnscheduleDrop projects (some (pid, tid)) = projects := by
  have hd : handleUnscheduleDrop projects (some (pid, tid)) =
      handleUpdateTask projects pid tid { scheduledDate := some none } := rfl
  rw [hd]
  exact handleUpdateTask_unsched_eq_self pid tid projects h

/-- C9 witness: unscheduling the already-unscheduled huge task is a
no-op on its project list. -/
theorem unschedule_idempotent_witness :
    handleUnscheduleDrop [hugeProject] (some ("p", "huge")) = [hugeProject] := by
  refine unschedule_idempotent [hugeProject] "p" "huge" ?_
  intro p hp hpid t ht htid
  rw [List.mem_singleton] at hp
  subst hp
  simp only [hugeProject, hugeTask, flattenTasks, List.append_nil, List.mem_singleton] at ht
  subst ht
  rfl

/-- C10: Implicit resize baseline inflation: the height handed to the
resize logic for a block is the rendered `max estimatedMinutes 30`
pixels, so for a task with `0 < estimatedMinutes < 30` a resize drag
with zero net vertical displacement has candidate height 30 and its
release commits `estimatedMinutes = 30` — silently increasing the
estimate (`30 ≠ estimatedMinutes`) although the pointer did not move. -/
theorem resize_baseline_inflation (est : Nat) (projects : List Project) (pid tid : String)
    (h1 : 0 < est) (h2 : est < 30) :
    durationHeight est = 30 ∧
    candidateHeight ((durationHeight est : Nat) : ℚ) 0 = 30 ∧
    commitSnappedMinutes (candidateHeight ((durationHeight est : Nat) : ℚ) 0) = 30 ∧
    30 ≠ est ∧
    List.Forall₂ (fun p q =>
        (p.id ≠ pid → q = p) ∧
        (p.id = pid →
          findTaskById q.subtasks tid = Option.map
            (fun t => { t with estimatedMinutes := 30 }) (findTaskById p.subtasks tid) ∧
          ∀ tid2, Option.map SubTask.scheduledDate (findTaskById q.subtasks tid2) =
            Option.map SubTask.scheduledDate (findTaskById p.subtasks tid2)))
      projects (handleResizeMouseUp projects pid tid
        (some (candidateHeight ((durationHeight est : Nat) : ℚ) 0))) := by
  have hdur : durationHeight est = 30 := max_eq_right (le_of_lt h2)
  have hcast : ((durationHeight est : Nat) : ℚ) = 30 := by
    rw [hdur]
    norm_num
  have hcand : candidateHeight ((durationHeight est : Nat) : ℚ) 0 = 30 := by
    rw [hcast]
    rw [candidateHeight]
    norm_num
  have hcommit : commitSnappedMinutes (candidateHeight ((durationHeight est : Nat) : ℚ) 0) = 30 := by
    rw [hcand, commitSnappedMinutes, jsRound, jsRound]
    norm_num
  have hne : candidateHeight ((durationHeight est : Nat) : ℚ) 0 ≠ 0 := by
    rw [hcand]
    norm_num
  have hmu : handleResizeMouseUp projects pid tid
      (some (candidateHeight ((durationHeight est : Nat) : ℚ) 0)) =
      handleUpdateTask projects pid tid { estimatedMinutes := some 30 } := by
    rw [handleResizeMouseUp, if_neg hne, hcommit]
    rfl
  refine ⟨hdur, hcand, hcommit, by omega, ?_⟩
  rw [hmu]
  exact forall₂_handleUpdateTask_est projects pid tid 30

/-- C10 witness: a scheduled task estimated at 20 minutes, resized with
zero pointer displacement, gets its estimate silently committed as 30. -/
theorem resize_baseline_inflation_witness :
    durationHeight 20 = 30 ∧
    candidateHeight ((durationHeight 20 : Nat) : ℚ) 0 = 30 ∧
    commitSnappedMinutes (candidateHeight ((durationHeight 20 : Nat) : ℚ) 0) = 30 ∧
    30 ≠ 20 := by
  obtain ⟨h1, h2, h3, h4, -⟩ :=
    resize_baseline_inflation 20 [resizeProject] "p" "t" (by decide) (by decide)
  exact ⟨h1, h2, h3, h4⟩

end FocusOS
